import Mathlib

/-!
Shallow embedding of the DealAgent007 chat front-end.

The streaming component is `handleSubmit` in `src/chat-ui/src/App.js`:
it POSTs the user input, reads the response body chunk by chunk, splits
each chunk on newlines, drops blank lines and the `[DONE]` sentinel,
strips a leading `data: ` prefix, parses each line as JSON and appends
`json.content.content` to the displayed response whenever
`json.type === "message"` and `json.content?.content` is truthy.

The non-streaming variant (`src/unnamed/part_000`) displays
`data.response || JSON.stringify(data, null, 2)`.

JSON values are modelled by `JValue`.  Numbers keep their source lexeme:
no claim depends on floating-point evaluation or JS number formatting,
which are outside the scope of this embedding.  JS strings are UTF-16;
Lean strings hold Unicode scalar values, so a lone surrogate produced by
a `\uXXXX` escape is modelled as U+FFFD (the USVString conversion).
-/

/-- JSON values as produced by `JSON.parse`.  Object fields keep first
insertion order with last-write-wins values, as in JS. -/
inductive JValue where
  | null
  | bool (b : Bool)
  | num (lexeme : String)
  | str (s : String)
  | arr (elems : List JValue)
  | obj (fields : List (String × JValue))

/-- JSON insignificant whitespace (RFC 8259 / `JSON.parse`). -/
def jsonWs (c : Char) : Bool :=
  c = ' ' || c = '\t' || c = '\n' || c = '\r'

/-- Drop leading JSON whitespace. -/
def skipWs : List Char → List Char
  | [] => []
  | c :: cs => if jsonWs c then skipWs cs else c :: cs

/-- The whitespace set recognised by JS `String.prototype.trim`
(ECMA-262 WhiteSpace and LineTerminator code points). -/
def jsWhitespace (c : Char) : Bool :=
  let n := c.toNat
  n = 9 || n = 10 || n = 11 || n = 12 || n = 13 || n = 32 ||
  n = 0xa0 || n = 0x1680 || (0x2000 ≤ n && n ≤ 0x200a) ||
  n = 0x2028 || n = 0x2029 || n = 0x202f || n = 0x205f ||
  n = 0x3000 || n = 0xfeff

/-- JS `str.trim()` on a character list. -/
def jsTrimList (cs : List Char) : List Char :=
  ((cs.dropWhile jsWhitespace).reverse.dropWhile jsWhitespace).reverse

/-- JS `str.split("\n")`: split at every newline, keeping empty pieces. -/
def splitNl : List Char → List (List Char)
  | [] => [[]]
  | c :: cs =>
    if c = '\n' then [] :: splitNl cs
    else
      match splitNl cs with
      | [] => [[c]]
      | l :: ls => (c :: l) :: ls

/-- Value of one hexadecimal digit (digits, then the two letter ranges,
compared by code point). -/
def hexDigitVal (c : Char) : Option Nat :=
  let n := c.toNat
  if 48 ≤ n ∧ n ≤ 57 then some (n - 48)
  else if 97 ≤ n ∧ n ≤ 102 then some (n - 87)
  else if 65 ≤ n ∧ n ≤ 70 then some (n - 55)
  else none

/-- Value of a four-digit hexadecimal escape. -/
def hex4 (a b c d : Char) : Option Nat :=
  match hexDigitVal a, hexDigitVal b, hexDigitVal c, hexDigitVal d with
  | some x, some y, some z, some w => some (x * 4096 + y * 256 + z * 16 + w)
  | _, _, _, _ => none

/-- Single-character JSON string escapes. -/
def escChar (e : Char) : Option Char :=
  if e = '"' then some '"'
  else if e = '\\' then some '\\'
  else if e = '/' then some '/'
  else if e = 'b' then some (Char.ofNat 8)
  else if e = 'f' then some (Char.ofNat 12)
  else if e = 'n' then some '\n'
  else if e = 'r' then some '\r'
  else if e = 't' then some '\t'
  else none

/-- Parse the body of a JSON string (after the opening quote) up to and
including the closing quote, returning the decoded characters and the
remaining input.  Surrogate pairs written as two `\u` escapes are
combined; a lone surrogate becomes U+FFFD.  Raw control characters are
rejected, as in `JSON.parse`.  Fuel bounds the recursion; each step
consumes at least one input character, so `length + 1` fuel suffices. -/
def parseStrBody : Nat → List Char → Option (List Char × List Char)
  | 0, _ => none
  | _ + 1, [] => none
  | f + 1, c :: cs =>
    if c = '"' then some ([], cs)
    else if c = '\\' then
      match cs with
      | 'u' :: a :: b :: c2 :: d :: rest =>
        match hex4 a b c2 d with
        | none => none
        | some n =>
          if 0xd800 ≤ n ∧ n ≤ 0xdbff then
            match rest with
            | '\\' :: 'u' :: a2 :: b2 :: c3 :: d2 :: rest2 =>
              match hex4 a2 b2 c3 d2 with
              | some m =>
                if 0xdc00 ≤ m ∧ m ≤ 0xdfff then
                  (parseStrBody f rest2).map
                    (fun p => (Char.ofNat (0x10000 + (n - 0xd800) * 0x400 + (m - 0xdc00)) :: p.1, p.2))
                else
                  (parseStrBody f rest).map (fun p => (Char.ofNat 0xfffd :: p.1, p.2))
              | none => none
            | _ =>
              (parseStrBody f rest).map (fun p => (Char.ofNat 0xfffd :: p.1, p.2))
          else if 0xdc00 ≤ n ∧ n ≤ 0xdfff then
            (parseStrBody f rest).map (fun p => (Char.ofNat 0xfffd :: p.1, p.2))
          else
            (parseStrBody f rest).map (fun p => (Char.ofNat n :: p.1, p.2))
      | e :: rest =>
        match escChar e with
        | some ec => (parseStrBody f rest).map (fun p => (ec :: p.1, p.2))
        | none => none
      | [] => none
    else if c.toNat < 0x20 then none
    else (parseStrBody f cs).map (fun p => (c :: p.1, p.2))

/-- Parse an optional exponent part of a JSON number. -/
def parseExpPart (acc : List Char) (cs : List Char) : Option (List Char × List Char) :=
  match cs with
  | c :: r =>
    if c = 'e' || c = 'E' then
      let sg : List Char × List Char :=
        match r with
        | '+' :: rr => (['+'], rr)
        | '-' :: rr => (['-'], rr)
        | _ => ([], r)
      let ds := sg.2.takeWhile Char.isDigit
      if ds = [] then none
      else some (acc ++ c :: sg.1 ++ ds, sg.2.dropWhile Char.isDigit)
    else some (acc, c :: r)
  | [] => some (acc, [])

/-- Parse an optional fraction part of a JSON number, then the exponent. -/
def parseFracExp (acc : List Char) (cs : List Char) : Option (List Char × List Char) :=
  match cs with
  | '.' :: r =>
    let ds := r.takeWhile Char.isDigit
    if ds = [] then none
    else parseExpPart (acc ++ '.' :: ds) (r.dropWhile Char.isDigit)
  | _ => parseExpPart acc cs

/-- Parse a JSON number lexeme (strict RFC 8259 grammar, as `JSON.parse`:
no leading zeros, no bare dot). -/
def parseNumLex (cs : List Char) : Option (List Char × List Char) :=
  let sign : List Char × List Char :=
    match cs with
    | '-' :: r => (['-'], r)
    | _ => ([], cs)
  match sign.2 with
  | [] => none
  | c :: r =>
    if c = '0' then parseFracExp (sign.1 ++ ['0']) r
    else if c.isDigit then
      parseFracExp (sign.1 ++ c :: r.takeWhile Char.isDigit) (r.dropWhile Char.isDigit)
    else none

/-- Insert a parsed object member: a duplicate key keeps its original
position and takes the new value, as in `JSON.parse`. -/
def insertField : List (String × JValue) → String → JValue → List (String × JValue)
  | [], k, v => [(k, v)]
  | (k1, v1) :: rest, k, v =>
    if k1 = k then (k1, v) :: rest else (k1, v1) :: insertField rest k v

/-- The parser work items: a value, the tail of an array after `[`, or
the tail of an object after the opening brace. -/
inductive PTask where
  | pvalue
  | parrTail (acc : List JValue)
  | pobjTail (acc : List (String × JValue))

/-- Core JSON parser, structurally recursive on fuel.  Returns the parsed
value and the unconsumed input. -/
def parseCore : Nat → PTask → List Char → Option (JValue × List Char)
  | 0, _, _ => none
  | f + 1, .pvalue, cs =>
    match cs with
    | [] => none
    | c :: rest =>
      if c = '\x7b' then
        match skipWs rest with
        | '\x7d' :: r1 => some (.obj [], r1)
        | r => parseCore f (.pobjTail []) r
      else if c = '[' then
        match skipWs rest with
        | ']' :: r1 => some (.arr [], r1)
        | r => parseCore f (.parrTail []) r
      else if c = '"' then
        (parseStrBody (rest.length + 1) rest).map (fun p => (.str (String.mk p.1), p.2))
      else if c = 't' then
        match rest with
        | 'r' :: 'u' :: 'e' :: r => some (.bool true, r)
        | _ => none
      else if c = 'f' then
        match rest with
        | 'a' :: 'l' :: 's' :: 'e' :: r => some (.bool false, r)
        | _ => none
      else if c = 'n' then
        match rest with
        | 'u' :: 'l' :: 'l' :: r => some (.null, r)
        | _ => none
      else if c = '-' || c.isDigit then
        (parseNumLex (c :: rest)).map (fun p => (.num (String.mk p.1), p.2))
      else none
  | f + 1, .parrTail acc, cs =>
    match parseCore f .pvalue (skipWs cs) with
    | none => none
    | some (v, rest) =>
      match skipWs rest with
      | ',' :: r => parseCore f (.parrTail (acc ++ [v])) r
      | ']' :: r => some (.arr (acc ++ [v]), r)
      | _ => none
  | f + 1, .pobjTail acc, cs =>
    match skipWs cs with
    | '"' :: r =>
      match parseStrBody (r.length + 1) r with
      | none => none
      | some (k, r1) =>
        match skipWs r1 with
        | ':' :: r2 =>
          match parseCore f .pvalue (skipWs r2) with
          | none => none
          | some (v, r3) =>
            match skipWs r3 with
            | ',' :: r4 => parseCore f (.pobjTail (insertField acc (String.mk k) v)) r4
            | '\x7d' :: r4 => some (.obj (insertField acc (String.mk k) v), r4)
            | _ => none
        | _ => none
    | _ => none

/-- `JSON.parse`: parse a complete JSON text, allowing surrounding
whitespace only.  `none` models a thrown `SyntaxError`.  The fuel
`2 * length + 8` dominates the recursion depth: every two fuel steps
consume at least one input character. -/
def jsonParse (s : String) : Option JValue :=
  match parseCore (2 * s.data.length + 8) .pvalue (skipWs s.data) with
  | some (v, rest) => if skipWs rest = [] then some v else none
  | none => none

/-- Field access `v.k` on a parsed JSON value: defined only for objects,
`none` models JS `undefined`. -/
def jsGet (v : JValue) (k : String) : Option JValue :=
  match v with
  | .obj fs => lookupField fs k
  | _ => none
where
  lookupField : List (String × JValue) → String → Option JValue
    | [], _ => none
    | (k1, v1) :: rest, k => if k1 = k then some v1 else lookupField rest k

/-- A JSON number is JS-falsy exactly when its value is zero, i.e. every
digit of its integer and fraction parts is `0` (the exponent is
irrelevant; JSON has no NaN). -/
def numLexIsZero (lex : List Char) : Bool :=
  (lex.takeWhile (fun c => !(c = 'e' || c = 'E'))).all
    (fun c => c = '0' || c = '.' || c = '-')

/-- JS truthiness of a possibly-undefined value (`none` = `undefined`). -/
def truthy : Option JValue → Bool
  | none => false
  | some .null => false
  | some (.bool b) => b
  | some (.num lex) => !numLexIsZero lex.data
  | some (.str s) => !(s = "")
  | some (.arr _) => true
  | some (.obj _) => true

/-- Join strings with a comma, as `Array.prototype.join`. -/
def joinComma : List String → String
  | [] => ""
  | [s] => s
  | s :: rest => s ++ "," ++ joinComma rest

/-- Nesting depth of a JSON value, used as recursion fuel for the
JS coercion and serialisation functions below. -/
def jdepth : JValue → Nat
  | .arr es => 1 + (es.attach.map (fun e => jdepth e.1)).foldr max 0
  | .obj fs => 1 + (fs.attach.map (fun kv => jdepth kv.1.2)).foldr max 0
  | _ => 0
decreasing_by
  · have h := List.sizeOf_lt_of_mem e.2
    simp only [JValue.arr.sizeOf_spec]
    omega
  · have h := List.sizeOf_lt_of_mem kv.2
    have h2 : sizeOf kv.1.2 < sizeOf kv.1 := by
      show sizeOf kv.1.2 < sizeOf (kv.1.1, kv.1.2)
      rw [Prod.mk.sizeOf_spec]
      omega
    simp only [JValue.obj.sizeOf_spec]
    omega

/-- JS `String(v)` coercion, fuelled for the nested array case (`null`
elements of an array render as empty, nested arrays are joined
recursively, as `Array.prototype.join`).  Number lexemes stand in for
JS number formatting. -/
def jsToStringGo (fuel : Nat) (v : JValue) : String :=
  match v with
  | .null => "null"
  | .bool b => cond b "true" "false"
  | .num lex => lex
  | .str s => s
  | .obj _ => "[object Object]"
  | .arr es =>
    match fuel with
    | 0 => ""
    | f + 1 =>
      joinComma (es.map (fun e =>
        match e with
        | .null => ""
        | e1 => jsToStringGo f e1))

/-- JS `String(v)` coercion; the depth fuel dominates array nesting. -/
def jsToString : JValue → String
  | .null => "null"
  | .bool b => cond b "true" "false"
  | .num lex => lex
  | .str s => s
  | .obj fs => jsToStringGo 0 (JValue.obj fs)
  | .arr es => jsToStringGo (jdepth (JValue.arr es)) (JValue.arr es)

/-- Escape one string for JSON output, as `JSON.stringify`. -/
def jsQuoteGo : List Char → List Char
  | [] => []
  | c :: cs =>
    let n := c.toNat
    if c = '"' then '\\' :: '"' :: jsQuoteGo cs
    else if c = '\\' then '\\' :: '\\' :: jsQuoteGo cs
    else if n = 8 then '\\' :: 'b' :: jsQuoteGo cs
    else if n = 9 then '\\' :: 't' :: jsQuoteGo cs
    else if n = 10 then '\\' :: 'n' :: jsQuoteGo cs
    else if n = 12 then '\\' :: 'f' :: jsQuoteGo cs
    else if n = 13 then '\\' :: 'r' :: jsQuoteGo cs
    else if n < 0x20 then
      '\\' :: 'u' :: '0' :: '0' :: hexDigitCh (n / 16) :: hexDigitCh (n % 16) :: jsQuoteGo cs
    else c :: jsQuoteGo cs
where
  hexDigitCh (n : Nat) : Char :=
    if n < 10 then Char.ofNat ('0'.toNat + n) else Char.ofNat ('a'.toNat + n - 10)

/-- Quote and escape a string for JSON output. -/
def jsQuote (s : String) : String := "\"" ++ String.mk (jsQuoteGo s.data) ++ "\""

/-- Indentation of `2 * n` spaces, as `JSON.stringify(v, null, 2)`. -/
def pad2 (n : Nat) : String := String.mk (List.replicate (2 * n) ' ')

/-- Join strings with a separator. -/
def joinSep (sep : String) : List String → String
  | [] => ""
  | [s] => s
  | s :: rest => s ++ sep ++ joinSep sep rest

/-- `JSON.stringify(v, null, 2)` at indentation level `ind`, fuelled on
the nesting depth.  Empty arrays and objects print without newlines. -/
def stringifyGo (fuel : Nat) (ind : Nat) (v : JValue) : String :=
  match v with
  | .null => "null"
  | .bool b => cond b "true" "false"
  | .num lex => lex
  | .str s => jsQuote s
  | .arr es =>
    match fuel with
    | 0 => ""
    | f + 1 =>
      match es with
      | [] => "[]"
      | _ :: _ =>
        "[\n" ++
          joinSep ",\n" (es.map (fun e => pad2 (ind + 1) ++ stringifyGo f (ind + 1) e)) ++
          "\n" ++ pad2 ind ++ "]"
  | .obj fs =>
    match fuel with
    | 0 => ""
    | f + 1 =>
      match fs with
      | [] => "\x7b\x7d"
      | _ :: _ =>
        "\x7b\n" ++
          joinSep ",\n" (fs.map (fun kv =>
            pad2 (ind + 1) ++ jsQuote kv.1 ++ ": " ++ stringifyGo f (ind + 1) kv.2)) ++
          "\n" ++ pad2 ind ++ "\x7d"

/-- `JSON.stringify(v, null, 2)`; the depth fuel dominates nesting. -/
def stringify2 (v : JValue) : String := stringifyGo (jdepth v) 0 v

/-!
The streaming response assembler of `src/chat-ui/src/App.js`.

Each processed line is modelled by `processLineTr`, which returns the
new display buffer together with the list of values passed to
`setResponse` while processing the line (the setResponse trace).
-/

/-- The field access `json.content?.content`: `none` models JS
`undefined` reaching the truthiness test. -/
def contentContent (j : JValue) : Option JValue :=
  match jsGet j "content" with
  | none => none
  | some c => jsGet c "content"

/-- The test `json.type === "message"`: strict equality against a string
is true only for an equal string value. -/
def isMessageType (j : JValue) : Bool :=
  match jsGet j "type" with
  | some (.str s) => s = "message"
  | _ => false

/-- Handling of one parsed event: when `json.type === "message"` and
`json.content?.content` is truthy, the fragment is appended to the
buffer and the new buffer is published via `setResponse`; otherwise
nothing happens. -/
def applyEventTr (j : JValue) (buf : String) : String × List String :=
  match contentContent j with
  | some v =>
    if isMessageType j && truthy (some v) then
      (buf ++ jsToString v, [buf ++ jsToString v])
    else (buf, [])
  | none => (buf, [])

/-- The literal prefix `"data: "` stripped from lines.  The source
guards `line.replace("data: ", "")` with `line.startsWith("data: ")`,
so the replaced first occurrence is the leading prefix. -/
def stripData (cs : List Char) : List Char :=
  if ("data: ".data).isPrefixOf cs then cs.drop 6 else cs

/-- Processing of one line of the stream (`App.js` lines 39-56): skip the
`[DONE]` sentinel, strip a leading `data: `, parse as JSON, skip on
parse failure, otherwise apply the event. -/
def processLineTr (cs : List Char) (buf : String) : String × List String :=
  if jsTrimList cs = "[DONE]".data then (buf, [])
  else
    match jsonParse (String.mk (stripData cs)) with
    | none => (buf, [])
    | some j => applyEventTr j buf

/-- Process a list of lines in order, threading the buffer and
accumulating the setResponse trace. -/
def processLinesTr : List (List Char) → String × List String → String × List String
  | [], bt => bt
  | l :: ls, bt =>
    processLinesTr ls ((processLineTr l bt.1).1, bt.2 ++ (processLineTr l bt.1).2)

/-- The lines of one decoded chunk: split on newlines, drop lines that
are blank after trimming (`App.js` line 37). -/
def chunkLines (chunk : List Char) : List (List Char) :=
  (splitNl chunk).filter (fun l => !(jsTrimList l = []))

/-- Process one decoded chunk. -/
def processChunkTr (bt : String × List String) (chunk : List Char) : String × List String :=
  processLinesTr (chunkLines chunk) bt

/-- The read loop (`App.js` lines 32-57): each arriving chunk is decoded
and split independently; no carry-over of an unterminated trailing line
is kept between chunks. -/
def processStreamTr : List String → String × List String → String × List String
  | [], bt => bt
  | c :: cs, bt => processStreamTr cs (processChunkTr bt c.data)

/-- Final display buffer after consuming a whole stream of chunks. -/
def processStream (chunks : List String) : String :=
  (processStreamTr chunks ("", [])).1

/-!
The component state and the submit handler of `App.js`.
-/

/-- The React state of the component: the input field, the displayed
response and the loading flag. -/
structure AppState where
  input : String
  response : String
  isLoading : Bool

/-- A resolved HTTP response: its status code, the decoded body chunks
delivered by the reader, and an optional read failure after those
chunks (`none` means the transport signalled a clean end of stream). -/
structure HttpResponse where
  status : Nat
  chunks : List String
  readError : Option String

/-- Outcome of the `fetch` call: rejection with a network error message,
or a resolved response.  A non-success HTTP status resolves, as `fetch`
only rejects on network failure. -/
inductive FetchOutcome where
  | reject (msg : String)
  | resolve (res : HttpResponse)

/-- Result of one `handleSubmit` call: the final component state,
whether an HTTP request was issued, and the setResponse trace. -/
structure SubmitResult where
  state : AppState
  requested : Bool
  trace : List String

/-- `handleSubmit` of `App.js`: return early on blank input; otherwise
set the loading flag, clear the response, issue the request, run the
read loop, and on any thrown error replace the response with
`Error: ` followed by the message.  The loading flag is cleared in the
`finally` block.  The HTTP status of a resolved response is never
inspected.  No retry is performed. -/
def handleSubmit (st : AppState) (tr : FetchOutcome) : SubmitResult :=
  if jsTrimList st.input.data = [] then ⟨st, false, []⟩
  else
    match tr with
    | .reject msg =>
      ⟨⟨st.input, "Error: " ++ msg, false⟩, true, ["", "Error: " ++ msg]⟩
    | .resolve res =>
      match res.readError with
      | none =>
        ⟨⟨st.input, (processStreamTr res.chunks ("", [])).1, false⟩, true,
          "" :: (processStreamTr res.chunks ("", [])).2⟩
      | some msg =>
        ⟨⟨st.input, "Error: " ++ msg, false⟩, true,
          ("" :: (processStreamTr res.chunks ("", [])).2) ++ ["Error: " ++ msg]⟩

/-- A user gesture that could lead to a submission. -/
inductive UserAction where
  | clickSend
  | keyDown (key : String) (shift : Bool)

/-- The no-submission result. -/
def noSubmit (st : AppState) : SubmitResult := ⟨st, false, []⟩

/-- UI dispatch: clicking the send button goes through the form submit,
which the `disabled={isLoading}` attribute blocks while loading.
`handleKeyDown` calls `handleSubmit` directly for Enter without shift,
with no loading check.  Enter with shift falls through to the browser's
implicit form submission, which clicks the (possibly disabled) default
button.  Other keys do not submit. -/
def dispatch (st : AppState) (a : UserAction) (tr : FetchOutcome) : SubmitResult :=
  match a with
  | .clickSend => if st.isLoading then noSubmit st else handleSubmit st tr
  | .keyDown key shift =>
    if key = "Enter" && !shift then handleSubmit st tr
    else if key = "Enter" && shift then
      (if st.isLoading then noSubmit st else handleSubmit st tr)
    else noSubmit st

/-!
The non-streaming variant (`src/unnamed/part_000`): `handleSubmit`
POSTs to `/invoke` via axios and displays
`data.response || JSON.stringify(data, null, 2)`.
-/

/-- Outcome of the axios call: rejection with an error message, or the
parsed JSON body. -/
inductive AxiosOutcome where
  | reject (msg : String)
  | resolve (data : JValue)

/-- The value passed to `setResponse` on success in `part_000`:
`data.response || JSON.stringify(data, null, 2)`.  The `||` operator
keeps `data.response` when it is truthy and otherwise falls back to the
serialisation.  No other field is consulted. -/
def invokeDisplayed (data : JValue) : JValue :=
  match jsGet data "response" with
  | some v => if truthy (some v) then v else JValue.str (stringify2 data)
  | none => JValue.str (stringify2 data)

/-- `handleSubmit` of `part_000`, returning the new response text (the
component has no loading flag and no blank-input guard). -/
def invokeHandleSubmit (tr : AxiosOutcome) : String :=
  match tr with
  | .reject msg => "Error: " ++ msg
  | .resolve data => jsToString (invokeDisplayed data)

/-!
Helper lemmas about the assembler.
-/

/-- The buffer-growth relation: `b` extends `a` on the right. -/
def extendsTo (a b : String) : Prop := ∃ s, b = a ++ s

/-- Last element of a list, with a default for the empty list. -/
def lastD : List String → String → String
  | [], d => d
  | a :: l, _ => lastD l a

theorem lastD_append (t1 t2 : List String) (d : String) :
    lastD (t1 ++ t2) d = lastD t2 (lastD t1 d) := by
  induction t1 generalizing d with
  | nil => rfl
  | cons a t1 ih => simp [lastD, ih]

theorem chain_lastD_append {R : String → String → Prop} :
    ∀ (t1 : List String) (a : String) (t2 : List String),
      List.Chain R a t1 → List.Chain R (lastD t1 a) t2 → List.Chain R a (t1 ++ t2) := by
  intro t1
  induction t1 with
  | nil => intro a t2 _ h2; simpa [lastD] using h2
  | cons b t1 ih =>
    intro a t2 h1 h2
    cases h1 with
    | cons hr hc =>
      exact List.Chain.cons hr (ih b t2 hc (by simpa [lastD] using h2))

/-- An event that is not a message or has no defined `content.content`
changes nothing and publishes nothing. -/
theorem applyEventTr_skip (j : JValue) (buf : String)
    (h : isMessageType j = false ∨ contentContent j = none) :
    applyEventTr j buf = (buf, []) := by
  unfold applyEventTr
  cases hc : contentContent j with
  | none => rfl
  | some v =>
    rcases h with h | h
    · simp [h]
    · rw [hc] at h; cases h

/-- Each applied event either leaves the buffer alone and publishes
nothing, or appends one fragment and publishes the new buffer once. -/
theorem applyEventTr_spec (j : JValue) (buf : String) :
    applyEventTr j buf = (buf, []) ∨
      ∃ s, applyEventTr j buf = (buf ++ s, [buf ++ s]) := by
  unfold applyEventTr
  cases contentContent j with
  | none => left; rfl
  | some v =>
    by_cases hg : (isMessageType j && truthy (some v)) = true
    · right
      refine ⟨jsToString v, ?_⟩
      show (if (isMessageType j && truthy (some v)) = true then
        (buf ++ jsToString v, [buf ++ jsToString v]) else (buf, [])) = _
      rw [if_pos hg]
    · left
      show (if (isMessageType j && truthy (some v)) = true then
        (buf ++ jsToString v, [buf ++ jsToString v]) else (buf, [])) = _
      rw [if_neg hg]

/-- Each processed line either leaves the buffer alone and publishes
nothing, or appends one fragment and publishes the new buffer once. -/
theorem processLineTr_spec (l : List Char) (buf : String) :
    processLineTr l buf = (buf, []) ∨
      ∃ s, processLineTr l buf = (buf ++ s, [buf ++ s]) := by
  unfold processLineTr
  by_cases hd : jsTrimList l = "[DONE]".data
  · left; rw [if_pos hd]
  · rw [if_neg hd]
    cases jsonParse (String.mk (stripData l)) with
    | none => left; rfl
    | some j => exact applyEventTr_spec j buf

/-- Processing a list of lines appends a monotone run of buffer values
to the trace; the final buffer is the last published value. -/
theorem linesTr_chain (ls : List (List Char)) :
    ∀ (buf : String) (tr : List String),
      ∃ t, processLinesTr ls (buf, tr) = (lastD t buf, tr ++ t) ∧
        List.Chain extendsTo buf t := by
  induction ls with
  | nil =>
    intro buf tr
    exact ⟨[], by simp [processLinesTr, lastD], List.Chain.nil⟩
  | cons l ls ih =>
    intro buf tr
    rcases processLineTr_spec l buf with h | ⟨s, h⟩
    · rcases ih buf tr with ⟨t, he, hc⟩
      refine ⟨t, ?_, hc⟩
      show processLinesTr ls ((processLineTr l buf).1, tr ++ (processLineTr l buf).2) = _
      rw [h]
      simpa using he
    · rcases ih (buf ++ s) (tr ++ [buf ++ s]) with ⟨t, he, hc⟩
      refine ⟨(buf ++ s) :: t, ?_, List.Chain.cons ⟨s, rfl⟩ hc⟩
      show processLinesTr ls ((processLineTr l buf).1, tr ++ (processLineTr l buf).2) = _
      rw [h]
      rw [show ((buf ++ s, [buf ++ s]).1, tr ++ (buf ++ s, [buf ++ s]).2) =
        (buf ++ s, tr ++ [buf ++ s]) from rfl, he]
      simp [lastD]

/-- The whole read loop appends a monotone run of buffer values to the
trace; the final buffer is the last published value. -/
theorem streamTr_chain (cs : List String) :
    ∀ (buf : String) (tr : List String),
      ∃ t, processStreamTr cs (buf, tr) = (lastD t buf, tr ++ t) ∧
        List.Chain extendsTo buf t := by
  induction cs with
  | nil =>
    intro buf tr
    exact ⟨[], by simp [processStreamTr, lastD], List.Chain.nil⟩
  | cons c cs ih =>
    intro buf tr
    rcases linesTr_chain (chunkLines c.data) buf tr with ⟨t1, he1, hc1⟩
    rcases ih (lastD t1 buf) (tr ++ t1) with ⟨t2, he2, hc2⟩
    refine ⟨t1 ++ t2, ?_, chain_lastD_append t1 buf t2 hc1 hc2⟩
    calc processStreamTr (c :: cs) (buf, tr)
        = processStreamTr cs (processLinesTr (chunkLines c.data) (buf, tr)) := rfl
      _ = processStreamTr cs (lastD t1 buf, tr ++ t1) := by rw [he1]
      _ = (lastD t2 (lastD t1 buf), (tr ++ t1) ++ t2) := he2
      _ = (lastD (t1 ++ t2) buf, tr ++ (t1 ++ t2)) := by
            rw [lastD_append]; simp

/-!
Claim theorems.
-/

/-- C1: the spec requires the final DisplayBuffer to be independent of
chunk-boundary placement.  The code violates it: a message line split
across two chunks is parsed as two invalid lines and dropped, while the
same bytes in one chunk yield the fragment.  This theorem evaluates the
code on the failing input: the split stream produces an empty buffer,
the unsplit stream produces `Hi`. -/
theorem c1_chunk_boundary_dependence :
    processStream
        ["data: \x7b\"type\":\"mess",
         "age\",\"content\":\x7b\"content\":\"Hi\"\x7d\x7d"] = "" ∧
    processStream
        ["data: \x7b\"type\":\"message\",\"content\":\x7b\"content\":\"Hi\"\x7d\x7d"] = "Hi" :=
  ⟨by decide, by decide⟩

/-- C2 counterexample: a resolved response with non-success HTTP status
500 is not surfaced as an error.  The request is issued, its body is
fed through the line parser, and the final DisplayBuffer is the empty
string rather than an error string; the loading flag is cleared. -/
theorem c2_counterexample_status_not_checked :
    (handleSubmit ⟨"hi", "", false⟩
        (.resolve ⟨500, ["Internal Server Error"], none⟩)).requested = true ∧
    (handleSubmit ⟨"hi", "", false⟩
        (.resolve ⟨500, ["Internal Server Error"], none⟩)).state.response = "" ∧
    (handleSubmit ⟨"hi", "", false⟩
        (.resolve ⟨500, ["Internal Server Error"], none⟩)).state.isLoading = false :=
  ⟨by decide, by decide, by decide⟩

/-- C2 (amended): on a network error — a rejected fetch or a mid-stream
read failure — the loop is aborted, DisplayBuffer is replaced by
`Error: ` followed by the underlying error description, and the loading
flag becomes false; exactly one request is issued and no retry is
attempted.  A non-success HTTP status is not a detected failure. -/
theorem c2_network_failure_aborts (st : AppState) (msg : String) (status : Nat)
    (chunks : List String) (h : ¬ jsTrimList st.input.data = []) :
    (handleSubmit st (.reject msg)).state.response = "Error: " ++ msg ∧
    (handleSubmit st (.reject msg)).state.isLoading = false ∧
    (handleSubmit st (.reject msg)).requested = true ∧
    (handleSubmit st (.resolve ⟨status, chunks, some msg⟩)).state.response = "Error: " ++ msg ∧
    (handleSubmit st (.resolve ⟨status, chunks, some msg⟩)).state.isLoading = false := by
  unfold handleSubmit
  simp [h]

/-- Witness for C2 at a concrete state and error. -/
theorem c2_network_failure_aborts_witness :
    (handleSubmit ⟨"hi", "", false⟩ (.reject "boom")).state.response = "Error: " ++ "boom" ∧
    (handleSubmit ⟨"hi", "", false⟩ (.reject "boom")).state.isLoading = false ∧
    (handleSubmit ⟨"hi", "", false⟩ (.reject "boom")).requested = true ∧
    (handleSubmit ⟨"hi", "", false⟩
        (.resolve ⟨200, ["x"], some "boom"⟩)).state.response = "Error: " ++ "boom" ∧
    (handleSubmit ⟨"hi", "", false⟩
        (.resolve ⟨200, ["x"], some "boom"⟩)).state.isLoading = false :=
  c2_network_failure_aborts ⟨"hi", "", false⟩ "boom" 200 ["x"] (by decide)

/-- C3: the claim that no submission path starts a request while one is
in flight fails on the code.  With the loading flag set, the Enter key
without shift calls `handleSubmit` directly, with no loading check, and
a second request is issued; only the button path is blocked by
`disabled`.  This theorem evaluates the code at the failing input. -/
theorem c3_enter_key_requests_while_loading :
    (dispatch ⟨"hi", "", true⟩ (.keyDown "Enter" false)
        (.resolve ⟨200, [], none⟩)).requested = true ∧
    (dispatch ⟨"hi", "", true⟩ .clickSend
        (.resolve ⟨200, [], none⟩)).requested = false :=
  ⟨by decide, by decide⟩

/-- C4: a line that fails JSON parsing, or whose event is not of type
`message`, or lacks a defined `content.content`, leaves the buffer
unchanged, publishes nothing, and the loop continues with the remaining
lines. -/
theorem c4_invalid_lines_skipped (l : List Char) (buf : String) (tr : List String)
    (rest : List (List Char))
    (h : jsonParse (String.mk (stripData l)) = none ∨
      ∃ j, jsonParse (String.mk (stripData l)) = some j ∧
        (isMessageType j = false ∨ contentContent j = none)) :
    processLineTr l buf = (buf, []) ∧
    processLinesTr (l :: rest) (buf, tr) = processLinesTr rest (buf, tr) := by
  have h1 : processLineTr l buf = (buf, []) := by
    unfold processLineTr
    by_cases hd : jsTrimList l = "[DONE]".data
    · rw [if_pos hd]
    · rw [if_neg hd]
      rcases h with h | ⟨j, hj, hskip⟩
      · rw [h]
      · rw [hj]
        exact applyEventTr_skip j buf hskip
  refine ⟨h1, ?_⟩
  show processLinesTr rest ((processLineTr l buf).1, tr ++ (processLineTr l buf).2) = _
  rw [h1]
  simp

/-- Witness for C4: the literal line `not json` is skipped. -/
theorem c4_invalid_lines_skipped_witness :
    processLineTr ("not json".data) "abc" = ("abc", []) ∧
    processLinesTr ["not json".data] ("abc", []) = processLinesTr [] ("abc", []) :=
  c4_invalid_lines_skipped ("not json".data) "abc" [] [] (Or.inl (by rfl))

/-- C5: a blank input (empty or whitespace-only, so that `input.trim()`
is empty) causes an early return: no request is issued, no setResponse
call happens, and the whole component state is unchanged. -/
theorem c5_blank_input_no_request (st : AppState) (tr : FetchOutcome)
    (h : jsTrimList st.input.data = []) :
    handleSubmit st tr = ⟨st, false, []⟩ := by
  unfold handleSubmit
  rw [if_pos h]

/-- Witness for C5 at a whitespace-only input. -/
theorem c5_blank_input_no_request_witness :
    handleSubmit ⟨"  ", "prev", false⟩ (.reject "x") = ⟨⟨"  ", "prev", false⟩, false, []⟩ :=
  c5_blank_input_no_request ⟨"  ", "prev", false⟩ (.reject "x") (by decide)

/-- C6 counterexample: the non-streaming handler does not consult a
`content` field.  For the response object with a single `content`
field, the displayed value is the full two-space-indented JSON
serialisation, not the value `hi` of the `content` field. -/
theorem c6_counterexample_content_ignored :
    invokeDisplayed (JValue.obj [("content", JValue.str "hi")]) =
      JValue.str "\x7b\n  \"content\": \"hi\"\n\x7d" ∧
    ¬ invokeDisplayed (JValue.obj [("content", JValue.str "hi")]) = JValue.str "hi" := by
  have h : invokeDisplayed (JValue.obj [("content", JValue.str "hi")]) =
      JValue.str "\x7b\n  \"content\": \"hi\"\n\x7d" := by
    simp [invokeDisplayed, jsGet, jsGet.lookupField, stringify2, jdepth,
      stringifyGo, joinSep, pad2, jsQuote, jsQuoteGo]
  refine ⟨h, fun hcon => ?_⟩
  rw [h] at hcon
  simp only [JValue.str.injEq] at hcon
  exact absurd hcon (by decide)

/-- C6 (amended): the displayed value is the `response` field when that
field is present and truthy; in every other case (including an object
with only a `content` field) it is the full JSON serialisation with
two-space indentation.  The streaming assembler is not involved: the
non-streaming handler is defined without reference to it. -/
theorem c6_displayed_is_response_or_json (data : JValue) (v : JValue) :
    (jsGet data "response" = some v → truthy (some v) = true →
      invokeDisplayed data = v) ∧
    (jsGet data "response" = some v → truthy (some v) = false →
      invokeDisplayed data = JValue.str (stringify2 data)) ∧
    (jsGet data "response" = none →
      invokeDisplayed data = JValue.str (stringify2 data)) := by
  refine ⟨?_, ?_, ?_⟩
  · intro h ht
    unfold invokeDisplayed
    rw [h]
    show (if truthy (some v) = true then v else JValue.str (stringify2 data)) = v
    rw [if_pos ht]
  · intro h ht
    unfold invokeDisplayed
    rw [h]
    show (if truthy (some v) = true then v else JValue.str (stringify2 data)) =
      JValue.str (stringify2 data)
    rw [if_neg]
    simp [ht]
  · intro h
    unfold invokeDisplayed
    rw [h]

/-- Witness for C6 at a truthy `response` field, at a present but falsy
(empty-string) `response` field, and at an object with no `response`
field. -/
theorem c6_displayed_is_response_or_json_witness :
    invokeDisplayed (JValue.obj [("response", JValue.str "ok")]) = JValue.str "ok" ∧
    invokeDisplayed (JValue.obj [("response", JValue.str "")]) =
      JValue.str (stringify2 (JValue.obj [("response", JValue.str "")])) ∧
    invokeDisplayed (JValue.num "1") = JValue.str (stringify2 (JValue.num "1")) :=
  ⟨(c6_displayed_is_response_or_json
      (JValue.obj [("response", JValue.str "ok")]) (JValue.str "ok")).1 rfl rfl,
   (c6_displayed_is_response_or_json
      (JValue.obj [("response", JValue.str "")]) (JValue.str "")).2.1 rfl rfl,
   (c6_displayed_is_response_or_json (JValue.num "1") JValue.null).2.2 rfl⟩

/-- C7: on a submission with non-blank input that streams to a clean end
of stream, DisplayBuffer is cleared exactly once, before the request:
the setResponse trace starts with the empty string, and every later
published value extends the previous one as a prefix. -/
theorem c7_clear_once_then_monotone (st : AppState) (status : Nat)
    (chunks : List String) (h : ¬ jsTrimList st.input.data = []) :
    ∃ t, (handleSubmit st (.resolve ⟨status, chunks, none⟩)).trace = "" :: t ∧
      List.Chain extendsTo "" t := by
  rcases streamTr_chain chunks "" [] with ⟨t, he, hc⟩
  refine ⟨t, ?_, hc⟩
  unfold handleSubmit
  rw [if_neg h]
  show "" :: (processStreamTr chunks ("", [])).2 = "" :: t
  rw [he]
  simp

/-- Witness for C7 at a concrete state and stream. -/
theorem c7_clear_once_then_monotone_witness :
    ∃ t, (handleSubmit ⟨"hi", "", false⟩
        (.resolve ⟨200, ["x"], none⟩)).trace = "" :: t ∧
      List.Chain extendsTo "" t :=
  c7_clear_once_then_monotone ⟨"hi", "", false⟩ 200 ["x"] (by decide)

/-- C8: a line equal to `[DONE]` after trimming contributes nothing to
the buffer and publishes nothing, and processing continues with the
remaining lines: the loop ends only when the chunk list is exhausted. -/
theorem c8_done_sentinel_skipped (l : List Char) (buf : String) (tr : List String)
    (rest : List (List Char)) (h : jsTrimList l = "[DONE]".data) :
    processLineTr l buf = (buf, []) ∧
    processLinesTr (l :: rest) (buf, tr) = processLinesTr rest (buf, tr) := by
  have h1 : processLineTr l buf = (buf, []) := by
    unfold processLineTr
    rw [if_pos h]
  refine ⟨h1, ?_⟩
  show processLinesTr rest ((processLineTr l buf).1, tr ++ (processLineTr l buf).2) = _
  rw [h1]
  simp

/-- Witness for C8 at a sentinel with surrounding whitespace, followed
by a further line. -/
theorem c8_done_sentinel_skipped_witness :
    processLineTr ("  [DONE]  ".data) "buf" = ("buf", []) ∧
    processLinesTr ["  [DONE]  ".data, "x".data] ("buf", []) =
      processLinesTr ["x".data] ("buf", []) :=
  c8_done_sentinel_skipped ("  [DONE]  ".data) "buf" [] ["x".data] (by decide)

/-- C9: the three given input lines assemble to exactly `Hello`. -/
theorem c9_hello_example :
    (processLinesTr
      ["data: \x7b\"type\":\"message\",\"content\":\x7b\"content\":\"Hel\"\x7d\x7d".data,
       "data: \x7b\"type\":\"message\",\"content\":\x7b\"content\":\"lo\"\x7d\x7d".data,
       "[DONE]".data] ("", [])).1 = "Hello" := by decide

/-- C10: a message event whose `content.content` is the empty string
performs no buffer update at all — the truthiness test rejects the
empty string, so no setResponse call happens, exactly as for a missing
field. -/
theorem c10_empty_fragment_no_update (j : JValue) (buf : String)
    (_hm : isMessageType j = true) (h : contentContent j = some (JValue.str "")) :
    applyEventTr j buf = (buf, []) := by
  unfold applyEventTr
  rw [h]
  show (if (isMessageType j && truthy (some (JValue.str ""))) = true then
    (buf ++ jsToString (JValue.str ""), [buf ++ jsToString (JValue.str "")])
    else (buf, [])) = (buf, [])
  rw [if_neg]
  simp [truthy]

/-- Witness for C10 at a concrete message event with empty content. -/
theorem c10_empty_fragment_no_update_witness :
    applyEventTr (JValue.obj [("type", JValue.str "message"),
      ("content", JValue.obj [("content", JValue.str "")])]) "abc" = ("abc", []) :=
  c10_empty_fragment_no_update _ "abc" rfl rfl
